import Mathlib

/-!
Verification development for the Dispatch Engine of the AI service
marketplace MVP.  The repository ships the PostgreSQL schema
(database/schema.sql) together with the design documentation; the Python
service bodies (pricing_engine.py, master_matcher.py, payment_service.py,
ai_orchestrator.py) are referenced by the documentation but are not part
of this tree, so those components are modelled from the specification and
clearly marked as such.  Schema-level facts (job status CHECK constraint,
the masters.rating column type, the UNIQUE NOT NULL phone column) are
embedded directly from database/schema.sql.
-/

/-! ## Payment methods and settlement -/

/-- Payment methods admitted by the CHECK constraint on
transactions.payment_method in database/schema.sql. -/
inductive PaymentMethod
  | card
  | sbp
  | qr
  | cash
  | wallet
deriving DecidableEq

/-- Modelled from the spec: a payment-method fee schedule (§4.5 input),
holding the gateway fee rate and the platform commission rate. -/
structure FeeSchedule where
  gatewayFeeRate : ℚ
  platformCommissionRate : ℚ
deriving DecidableEq

/-- Modelled from the spec: round-half-up to the smallest currency unit
(§4.5 rounding policy); the Settlement Calculator source
(payment_service.py) is absent from the tree. -/
def roundHalfUp (x : ℚ) : ℤ := (x + 1 / 2).floor

/-- The three-way split produced by the Settlement Calculator, in integer
minor currency units. -/
structure Settlement where
  gatewayFee : ℤ
  platformCommission : ℤ
  masterPayout : ℤ
deriving DecidableEq

/-- Modelled from the spec: the §4.5 settlement algorithm —
gatewayFee = round(gross * gatewayFeeRate); net = gross - gatewayFee;
platformCommission = round(net * platformCommissionRate);
masterPayout = net - platformCommission, computed by subtraction and never
by its own rounding. -/
def computeSettlement (gross : ℤ) (fs : FeeSchedule) : Settlement :=
  let gatewayFee := roundHalfUp ((gross : ℚ) * fs.gatewayFeeRate)
  let net := gross - gatewayFee
  let platformCommission := roundHalfUp ((net : ℚ) * fs.platformCommissionRate)
  ⟨gatewayFee, platformCommission, net - platformCommission⟩

/-- Modelled from the spec: the configured fee schedules.  The
documentation configures card, SBP and cash with a 2% gateway fee and a
25% platform commission (DEPLOYMENT_GUIDE PLATFORM_COMMISSION_RATE=0.25,
IMPLEMENTATION_SUMMARY payment flow); qr and wallet appear only in the
schema CHECK list and have no configured schedule. -/
def feeConfig : PaymentMethod → Option FeeSchedule
  | .card => some ⟨1 / 50, 1 / 4⟩
  | .sbp => some ⟨1 / 50, 1 / 4⟩
  | .cash => some ⟨1 / 50, 1 / 4⟩
  | _ => none

/-- Failure kinds of the synchronous calculators (§7). -/
inductive CalcError
  | configurationError
  | invalidInputError
deriving DecidableEq

/-- Modelled from the spec: the Settlement Calculator entry point —
unknown payment method fails with ConfigurationError, gross ≤ 0 fails
with InvalidInputError (§4.5 failure conditions). -/
def settle (gross : ℤ) (m : PaymentMethod) : Except CalcError Settlement :=
  match feeConfig m with
  | none => .error .configurationError
  | some fs => if gross ≤ 0 then .error .invalidInputError else .ok (computeSettlement gross fs)

/-! ## Transactions and capture idempotency -/

/-- A Transaction record: job id, external payment capture id, gross
amount, payment method and the computed split (spec §3 Transaction,
schema transactions table). -/
structure Transaction where
  jobId : ℕ
  externalPaymentId : ℕ
  gross : ℤ
  method : PaymentMethod
  split : Settlement
deriving DecidableEq

/-- Lookup of an existing Transaction by the idempotency key
(job id, external payment capture id) of §4.5. -/
def findTransaction (store : List Transaction) (jobId extId : ℕ) : Option Transaction :=
  store.find? (fun t => t.jobId == jobId && t.externalPaymentId == extId)

/-- Number of stored Transactions carrying a given idempotency key. -/
def countKey (store : List Transaction) (jobId extId : ℕ) : ℕ :=
  (store.filter (fun t => t.jobId == jobId && t.externalPaymentId == extId)).length

/-- Modelled from the spec: the successful-capture path of
capturePaymentResult (§4.5, §6) — settlement is keyed by
(job id, external payment capture id); a repeated capture notification
for the same key returns the existing Transaction rather than creating a
new one.  payment_service.py is absent from the tree. -/
def capturePaymentResult (store : List Transaction) (jobId extId : ℕ) (gross : ℤ)
    (m : PaymentMethod) (fs : FeeSchedule) : List Transaction × Transaction :=
  match findTransaction store jobId extId with
  | some t => (store, t)
  | none =>
    let t : Transaction := ⟨jobId, extId, gross, m, computeSettlement gross fs⟩
    (t :: store, t)

/-! ## Job statuses (database schema) -/

/-- The CHECK constraint on jobs.status in database/schema.sql: the
stored status must be one of these seven strings. -/
def jobStatusAllowed (s : String) : Bool :=
  s == "created" || s == "assigned" || s == "in_transit" || s == "in_progress" ||
    s == "completed" || s == "paid" || s == "cancelled"

/-- The ten job states named by §4.4 of the specification, used to compare
the specified state machine with the schema constraint. -/
def specJobStates : List String :=
  ["created", "quoted", "confirmed", "matching", "assigned", "in_progress",
    "completed", "settled", "cancelled", "unassigned"]

/-! ## Pricing -/

/-- Job categories admitted by the CHECK constraint on jobs.category in
database/schema.sql. -/
inductive Category
  | electrical
  | plumbing
  | renovation
  | appliances
deriving DecidableEq

/-- Urgency tiers (§3 data model). -/
inductive Urgency
  | flexible
  | normal
  | urgent
  | critical
deriving DecidableEq

/-- Complexity tiers (§3 data model). -/
inductive Complexity
  | simple
  | medium
  | complex
deriving DecidableEq

/-- Modelled from the spec: the §4.1 urgency multipliers
flexible 1.0, normal 1.0, urgent 1.5, critical 2.0. -/
def urgencyMultiplier : Urgency → ℚ
  | .flexible => 1
  | .normal => 1
  | .urgent => 3 / 2
  | .critical => 2

/-- Modelled from the spec: estimated labor hours derived from the
complexity tier (§4.1): simple 0.5h, medium 1.5h, complex 3h. -/
def complexityHours : Complexity → ℚ
  | .simple => 1 / 2
  | .medium => 3 / 2
  | .complex => 3

/-- Per-category pricing configuration: hourly rate and the configured
cost bounds (§4.1, DEPLOYMENT_GUIDE MINIMUM_JOB_COST / MAXIMUM_JOB_COST). -/
structure CategoryConfig where
  hourlyRate : ℚ
  minCost : ℚ
  maxCost : ℚ
deriving DecidableEq

/-- Clamp a subtotal into the configured bounds (§4.1). -/
def clamp (x lo hi : ℚ) : ℚ := max lo (min hi x)

/-- The quote breakdown retained on the Job (§4.1 output). -/
structure PriceBreakdown where
  labor : ℚ
  materials : ℚ
  multiplier : ℚ
  final : ℚ
deriving DecidableEq

/-- Modelled from the spec: the §4.1 Pricing Calculator algorithm —
labor = hourly_rate * estimated_hours; subtotal = labor *
urgency_multiplier + materials_cost; final = clamp(subtotal, min_cost,
max_cost).  pricing_engine.py is absent from the tree. -/
def calculateJobCost (cfg : CategoryConfig) (hours materialsCost : ℚ) (u : Urgency) :
    PriceBreakdown :=
  let labor := cfg.hourlyRate * hours
  let subtotal := labor * urgencyMultiplier u + materialsCost
  ⟨labor, materialsCost, urgencyMultiplier u, clamp subtotal cfg.minCost cfg.maxCost⟩

/-! ## Matcher scoring -/

/-- A Worker Registry snapshot of one master, as read by the Matcher
(§3 Worker, §4.2). -/
structure WorkerSnapshot where
  id : ℕ
  rating : ℚ
  openJobCount : ℕ
  dailyCapacity : ℕ
  tools : List String
deriving DecidableEq

/-- Modelled from the spec: the proximity component of the §4.3 score,
max(0, 1 - distance_km/30). -/
def proximityScore (distanceKm : ℚ) : ℚ := max 0 (1 - distanceKm / 30)

/-- Modelled from the spec: the workload component of the §4.3 score,
1 - openJobCount/dailyCapacity. -/
def workloadScore (w : WorkerSnapshot) : ℚ :=
  1 - (w.openJobCount : ℚ) / (w.dailyCapacity : ℚ)

/-- Modelled from the spec: the rating component of the §4.3 score,
worker.rating/5. -/
def ratingScore (w : WorkerSnapshot) : ℚ := w.rating / 5

/-- Modelled from the spec: the tools component of the §4.3 score, 1.0
exactly when every required tool tag is present, else 0.0. -/
def toolsScore (required : List String) (w : WorkerSnapshot) : ℚ :=
  if required.all (fun t => w.tools.contains t) then 1 else 0

/-- Modelled from the spec: the §4.3 step-2 candidate score, written as
the single inline weighted sum a matcher implementation computes from the
raw snapshot (master_matcher.py is absent from the tree). -/
def matchScore (required : List String) (distanceKm : ℚ) (w : WorkerSnapshot) : ℚ :=
  2 / 5 * max 0 (1 - distanceKm / 30) +
    3 / 10 * (1 - (w.openJobCount : ℚ) / (w.dailyCapacity : ℚ)) +
    1 / 5 * (w.rating / 5) +
    1 / 10 * (if required.all (fun t => w.tools.contains t) then 1 else 0)

/-! ## Matcher offer loop -/

/-- A scored candidate inside one matching run: worker id, §4.3 score and
the rating used as tie-break. -/
structure Candidate where
  id : ℕ
  score : ℚ
  rating : ℚ
deriving DecidableEq

/-- Offer outcomes (§3 Offer). -/
inductive OfferOutcome
  | accepted
  | declined
  | expired
deriving DecidableEq

/-- Result of one matching run (§4.3). -/
inductive MatchResult
  | assigned (workerId : ℕ)
  | noAvailableWorker
deriving DecidableEq

/-- Modelled from the spec: the §4.3 ranking key — descending score with
ties broken by higher rating and then by earlier (smaller) id — encoded
lexicographically so that the top-ranked candidate is the key maximum. -/
def rankKey (c : Candidate) : Lex (ℚ × Lex (ℚ × ℤ)) :=
  toLex (c.score, toLex (c.rating, -(c.id : ℤ)))

/-- Modelled from the spec: one §4.3 matching run over a candidate
snapshot.  resp gives each worker's reaction to an offer.  Each iteration
takes the top-ranked candidate not yet offered, sends it the single
offer, and on decline or timeout excludes that worker and repeats; when
no candidate remains the run ends with NoAvailableWorker.  The fuel
argument bounds the number of iterations; the candidate count suffices. -/
def matchLoop (resp : ℕ → OfferOutcome) :
    ℕ → List Candidate → List (Candidate × OfferOutcome) × MatchResult
  | 0, _ => ([], .noAvailableWorker)
  | fuel + 1, remaining =>
    match remaining.argmax rankKey with
    | none => ([], .noAvailableWorker)
    | some top =>
      match resp top.id with
      | .accepted => ([(top, .accepted)], .assigned top.id)
      | o =>
        let rest := matchLoop resp fuel (remaining.filter (fun c => c.id != top.id))
        ((top, o) :: rest.1, rest.2)

/-! ## Worker Registry reservations -/

/-- Modelled from the spec: Worker Registry reservation state (§4.2) —
for each worker id, the list of job ids currently holding a reservation
(reservations are tracked per job to make release idempotent); the open
job count is its length.  Reserve and release are the only mutation
points and each is atomic (linearizable per worker, §5), so any
concurrent execution is modelled by the linearization sequence of its
atomic operations. -/
def RegistryState : Type := ℕ → List ℕ

/-- The registry before any reservation. -/
def emptyRegistry : RegistryState := fun _ => []

/-- A worker's open job count: the number of jobs holding a reservation. -/
def openJobCount (st : RegistryState) (w : ℕ) : ℕ := (st w).length

/-- The two mutation operations of the Worker Registry (§4.2). -/
inductive RegistryOp
  | reserve (jobId workerId : ℕ)
  | release (jobId workerId : ℕ)

/-- Modelled from the spec: one atomic registry mutation (§4.2).
reserve succeeds only while openJobCount < dailyCapacity and the job does
not already hold a reservation, otherwise it fails with CapacityExceeded
leaving the state unchanged; release removes the job's reservation if
present and is idempotent per job. -/
def applyRegistryOp (capacity : ℕ → ℕ) (st : RegistryState) : RegistryOp → RegistryState
  | .reserve j w =>
    if (st w).length < capacity w && !((st w).contains j) then
      fun x => if x = w then j :: st w else st x
    else st
  | .release j w => fun x => if x = w then (st w).erase j else st x

/-- Run a sequence of atomic registry operations from the empty registry. -/
def runRegistry (capacity : ℕ → ℕ) (ops : List RegistryOp) : RegistryState :=
  ops.foldl (applyRegistryOp capacity) emptyRegistry

/-! ## Masters table: rating column and phone constraints -/

/-- The domain of the masters.rating column in database/schema.sql:
DECIMAL(3, 2) stores exact decimals with two fractional digits and at
most three significant digits, i.e. the multiples of 0.01 between -9.99
and 9.99; the schema places no CHECK constraint on rating. -/
def masterRatingColumnAccepts (r : ℚ) : Bool :=
  ((r * 100).den == 1) && decide (-999 ≤ (r * 100).num) && decide ((r * 100).num ≤ 999)

/-- A row of the masters table, restricted to the fields the phone
constraints concern (database/schema.sql: phone VARCHAR(20) UNIQUE NOT
NULL; a NULL phone is modelled as none). -/
structure MasterRow where
  id : ℕ
  fullName : String
  phone : Option String
  rating : ℚ
deriving DecidableEq

/-- Constraint violations raised by the masters table. -/
inductive DBError
  | notNullViolation
  | uniqueViolation
deriving DecidableEq

/-- The insert path of the masters table under its schema constraints:
phone is UNIQUE NOT NULL, so an insert with a null phone or with a phone
already present fails and returns no new table. -/
def insertMaster (tbl : List MasterRow) (row : MasterRow) : Except DBError (List MasterRow) :=
  match row.phone with
  | none => .error .notNullViolation
  | some p =>
    if tbl.any (fun r => r.phone == some p) then .error .uniqueViolation
    else .ok (row :: tbl)

/-- One attempted insert into the masters table: on a constraint
violation the table is left unchanged. -/
def applyInsert (tbl : List MasterRow) (row : MasterRow) : List MasterRow :=
  match insertMaster tbl row with
  | .ok t => t
  | .error _ => tbl

/-- The masters table reached by attempting a sequence of inserts from
the empty table, keeping the previous table whenever an insert fails. -/
def buildMasters (rows : List MasterRow) : List MasterRow :=
  rows.foldl applyInsert []

/-! ## Helper lemmas -/

/-- The computable rational floor agrees with the Mathlib floor. -/
theorem ratFloor_eq_intFloor (a : ℚ) : a.floor = ⌊a⌋ := by
  rw [Rat.floor_def', Rat.floor_def]

/-- roundHalfUp is the floor of the shifted argument. -/
theorem roundHalfUp_floor (x : ℚ) : roundHalfUp x = ⌊x + 1 / 2⌋ := by
  rw [roundHalfUp, ratFloor_eq_intFloor]

/-- Evaluation rule for roundHalfUp from two rational bounds. -/
theorem roundHalfUp_eq_of_bounds (x : ℚ) (n : ℤ) (h1 : (n : ℚ) ≤ x + 1 / 2)
    (h2 : x + 1 / 2 < n + 1) : roundHalfUp x = n := by
  rw [roundHalfUp_floor]
  exact Int.floor_eq_iff.mpr ⟨h1, h2⟩

/-! ## Claim theorems -/

/-- C1: for every gross amount > 0 and every configured payment method the
Settlement Calculator returns the rounded gateway fee, the commission
rounded on the net, and the payout as the unrounded residual, so that
gatewayFee + platformCommission + masterPayout = gross exactly; in
particular gross 1200 at rates 0.02 and 0.25 splits as 24 / 294 / 882. -/
theorem settlement_conserves_gross (gross : ℤ) (m : PaymentMethod) (fs : FeeSchedule)
    (hg : 0 < gross) (hm : feeConfig m = some fs) :
    settle gross m = .ok (computeSettlement gross fs) ∧
    (computeSettlement gross fs).gatewayFee = roundHalfUp ((gross : ℚ) * fs.gatewayFeeRate) ∧
    (computeSettlement gross fs).platformCommission =
      roundHalfUp (((gross - (computeSettlement gross fs).gatewayFee : ℤ) : ℚ) *
        fs.platformCommissionRate) ∧
    (computeSettlement gross fs).masterPayout =
      gross - (computeSettlement gross fs).gatewayFee -
        (computeSettlement gross fs).platformCommission ∧
    (computeSettlement gross fs).gatewayFee + (computeSettlement gross fs).platformCommission +
        (computeSettlement gross fs).masterPayout = gross ∧
    computeSettlement 1200 ⟨1 / 50, 1 / 4⟩ = ⟨24, 294, 882⟩ := by
  refine ⟨?_, rfl, rfl, rfl, ?_, ?_⟩
  · simp only [settle, hm]
    rw [if_neg (not_le.mpr hg)]
  · simp only [computeSettlement]
    ring
  · have e1 : roundHalfUp (((1200 : ℤ) : ℚ) * (1 / 50)) = 24 := by
      apply roundHalfUp_eq_of_bounds <;> norm_num
    have e2 : roundHalfUp (((1200 - 24 : ℤ) : ℚ) * (1 / 4)) = 294 := by
      apply roundHalfUp_eq_of_bounds <;> norm_num
    simp only [computeSettlement, e1, e2]
    decide

/-- Witness for C1 at gross 1200 paid by card. -/
theorem settlement_conserves_gross_witness :
    (computeSettlement 1200 ⟨1 / 50, 1 / 4⟩).gatewayFee +
        (computeSettlement 1200 ⟨1 / 50, 1 / 4⟩).platformCommission +
        (computeSettlement 1200 ⟨1 / 50, 1 / 4⟩).masterPayout = 1200 ∧
    computeSettlement 1200 ⟨1 / 50, 1 / 4⟩ = ⟨24, 294, 882⟩ :=
  ⟨(settlement_conserves_gross 1200 .card ⟨1 / 50, 1 / 4⟩ (by decide) rfl).2.2.2.2.1,
    (settlement_conserves_gross 1200 .card ⟨1 / 50, 1 / 4⟩ (by decide) rfl).2.2.2.2.2⟩

/-- C2: submitting capturePaymentResult twice with the same
(job id, external payment capture id) key creates exactly one
Transaction; the second submission returns the already-existing
Transaction and leaves the store unchanged. -/
theorem capture_payment_idempotent (store : List Transaction) (jobId extId : ℕ)
    (g g2 : ℤ) (m m2 : PaymentMethod) (fs fs2 : FeeSchedule)
    (h : countKey store jobId extId = 0) :
    countKey (capturePaymentResult store jobId extId g m fs).1 jobId extId = 1 ∧
    capturePaymentResult (capturePaymentResult store jobId extId g m fs).1 jobId extId g2 m2 fs2 =
      ((capturePaymentResult store jobId extId g m fs).1,
        (capturePaymentResult store jobId extId g m fs).2) := by
  have hnone : findTransaction store jobId extId = none := by
    rw [findTransaction, List.find?_eq_none]
    intro x hx
    have hfil : store.filter
        (fun t => t.jobId == jobId && t.externalPaymentId == extId) = [] :=
      List.length_eq_zero.mp h
    intro hpx
    have : x ∈ store.filter (fun t => t.jobId == jobId && t.externalPaymentId == extId) :=
      List.mem_filter.mpr ⟨hx, hpx⟩
    simp [hfil] at this
  have hfirst : capturePaymentResult store jobId extId g m fs =
      (⟨jobId, extId, g, m, computeSettlement g fs⟩ :: store,
        ⟨jobId, extId, g, m, computeSettlement g fs⟩) := by
    simp only [capturePaymentResult, hnone]
  rw [hfirst]
  constructor
  · simp only [countKey, List.filter_cons]
    have : ((⟨jobId, extId, g, m, computeSettlement g fs⟩ : Transaction).jobId == jobId &&
        (⟨jobId, extId, g, m, computeSettlement g fs⟩ : Transaction).externalPaymentId == extId)
        = true := by simp
    rw [this]
    have hfil : store.filter
        (fun t => t.jobId == jobId && t.externalPaymentId == extId) = [] :=
      List.length_eq_zero.mp h
    simp [hfil]
  · have hfind : findTransaction
        (⟨jobId, extId, g, m, computeSettlement g fs⟩ :: store) jobId extId =
        some ⟨jobId, extId, g, m, computeSettlement g fs⟩ := by
      rw [findTransaction, List.find?_cons_of_pos]
      simp
    simp only [capturePaymentResult, hfind]

/-- Witness for C2 on the empty store. -/
theorem capture_payment_idempotent_witness :
    countKey (capturePaymentResult [] 1 2 5 .card ⟨0, 0⟩).1 1 2 = 1 ∧
    capturePaymentResult (capturePaymentResult [] 1 2 5 .card ⟨0, 0⟩).1 1 2 7 .cash ⟨0, 0⟩ =
      ((capturePaymentResult [] 1 2 5 .card ⟨0, 0⟩).1,
        (capturePaymentResult [] 1 2 5 .card ⟨0, 0⟩).2) :=
  capture_payment_idempotent [] 1 2 5 7 .card .cash ⟨0, 0⟩ ⟨0, 0⟩ rfl

/-- C3 counterexample: the schema's CHECK constraint on jobs.status
accepts the state in_transit, which is not among the ten states of §4.4,
and rejects the state quoted, which §4.4 requires; so the stored status
set is not the specified one. -/
theorem job_status_check_differs_from_spec :
    jobStatusAllowed "in_transit" = true ∧ "in_transit" ∉ specJobStates ∧
    "quoted" ∈ specJobStates ∧ jobStatusAllowed "quoted" = false := by
  decide

/-- C3 (amended): every stored Job status satisfies the jobs.status CHECK
constraint, whose state set is exactly created, assigned, in_transit,
in_progress, completed, paid, cancelled; the schema constrains the status
value only and enforces no transition graph.  The default status created
is in the set. -/
theorem job_status_allowed_iff (s : String) :
    (jobStatusAllowed s = true ↔
      s = "created" ∨ s = "assigned" ∨ s = "in_transit" ∨ s = "in_progress" ∨
        s = "completed" ∨ s = "paid" ∨ s = "cancelled") ∧
    jobStatusAllowed "created" = true := by
  constructor
  · simp [jobStatusAllowed, or_assoc]
  · decide

/-- Witness for C3 (amended) at the schema default status. -/
theorem job_status_allowed_iff_witness : jobStatusAllowed "created" = true :=
  (job_status_allowed_iff "created").1.mpr (Or.inl rfl)

/-- C4: for every category configuration with min_cost ≤ max_cost and all
valid inputs, the final quote is the clamp of the subtotal into the
configured bounds, hence min_cost ≤ final ≤ max_cost. -/
theorem pricing_quote_within_bounds (cfg : CategoryConfig) (hours materialsCost : ℚ)
    (u : Urgency) (hcfg : cfg.minCost ≤ cfg.maxCost) (hh : 0 ≤ hours)
    (hmat : 0 ≤ materialsCost) :
    (calculateJobCost cfg hours materialsCost u).final =
      clamp (cfg.hourlyRate * hours * urgencyMultiplier u + materialsCost)
        cfg.minCost cfg.maxCost ∧
    cfg.minCost ≤ (calculateJobCost cfg hours materialsCost u).final ∧
    (calculateJobCost cfg hours materialsCost u).final ≤ cfg.maxCost := by
  refine ⟨rfl, ?_, ?_⟩
  · simp only [calculateJobCost, clamp]
    exact le_max_left _ _
  · simp only [calculateJobCost, clamp]
    exact max_le hcfg (min_le_left _ _)

/-- Witness for C4 at the documented configuration. -/
theorem pricing_quote_within_bounds_witness :
    (500 : ℚ) ≤ (calculateJobCost ⟨1000, 500, 50000⟩ (1 / 2) 200 .normal).final ∧
    (calculateJobCost ⟨1000, 500, 50000⟩ (1 / 2) 200 .normal).final ≤ 50000 :=
  (pricing_quote_within_bounds ⟨1000, 500, 50000⟩ (1 / 2) 200 .normal
    (by norm_num) (by norm_num) (by norm_num)).2

/-- C5: the electrical scenario — simple complexity (0.5 hours), normal
urgency (multiplier 1), hourly rate 1000, materials 200 — quotes exactly
700, and clamping against the minimum 500 leaves 700 unchanged. -/
theorem pricing_scenario_electrical_700 :
    (calculateJobCost ⟨1000, 500, 50000⟩ (complexityHours .simple) 200 .normal).final = 700 ∧
    complexityHours .simple = 1 / 2 ∧
    urgencyMultiplier .normal = 1 ∧
    (1000 : ℚ) * (1 / 2) * 1 + 200 = 700 ∧
    clamp 700 500 50000 = 700 := by
  refine ⟨?_, rfl, rfl, by norm_num, ?_⟩
  · simp only [calculateJobCost, complexityHours, urgencyMultiplier, clamp]
    norm_num
  · simp only [clamp]
    norm_num

/-- C6: the matcher score is exactly the §4.3 weighted sum
0.4 proximity + 0.3 workload + 0.2 rating + 0.1 tools; proximity
vanishes at or beyond 30 km; and the tools component is 1 exactly when
every required tool tag is present and is 0 otherwise. -/
theorem matcher_score_decomposition (required : List String) (d : ℚ) (w : WorkerSnapshot) :
    matchScore required d w =
      0.4 * proximityScore d + 0.3 * workloadScore w + 0.2 * ratingScore w +
        0.1 * toolsScore required w ∧
    (30 ≤ d → proximityScore d = 0) ∧
    (toolsScore required w = 1 ↔ ∀ t ∈ required, t ∈ w.tools) ∧
    (toolsScore required w = 1 ∨ toolsScore required w = 0) := by
  refine ⟨?_, ?_, ?_, ?_⟩
  · simp only [matchScore, proximityScore, workloadScore, ratingScore, toolsScore]
    norm_num
  · intro hd
    have h30 : (1 : ℚ) ≤ d / 30 := by
      rw [le_div_iff₀ (by norm_num : (0 : ℚ) < 30)]
      linarith
    simp only [proximityScore]
    exact max_eq_left (by linarith)
  · simp only [toolsScore]
    by_cases h : required.all (fun t => w.tools.contains t)
    · simp only [if_pos h, true_iff]
      simpa using h
    · rw [if_neg h]
      constructor
      · intro h10
        exact absurd h10 (by norm_num)
      · intro hall
        exact absurd (by simpa using hall) h
  · simp only [toolsScore]
    by_cases h : required.all (fun t => w.tools.contains t)
    · exact Or.inl (if_pos h)
    · exact Or.inr (if_neg h)

/-- Witness for C6 at distance 45 km and an empty requirement list. -/
theorem matcher_score_decomposition_witness :
    matchScore [] 45 ⟨0, 4, 2, 10, []⟩ =
      0.4 * proximityScore 45 + 0.3 * workloadScore ⟨0, 4, 2, 10, []⟩ +
        0.2 * ratingScore ⟨0, 4, 2, 10, []⟩ + 0.1 * toolsScore [] ⟨0, 4, 2, 10, []⟩ ∧
    proximityScore 45 = 0 :=
  ⟨(matcher_score_decomposition [] 45 ⟨0, 4, 2, 10, []⟩).1,
    (matcher_score_decomposition [] 45 ⟨0, 4, 2, 10, []⟩).2.1 (by norm_num)⟩

/-- One registry step preserves the per-worker capacity bound. -/
theorem applyRegistryOp_preserves (capacity : ℕ → ℕ) (st : RegistryState)
    (hst : ∀ w, (st w).length ≤ capacity w) (op : RegistryOp) :
    ∀ w, ((applyRegistryOp capacity st op) w).length ≤ capacity w := by
  intro w
  cases op with
  | reserve j v =>
    simp only [applyRegistryOp]
    by_cases hc : (st v).length < capacity v && !((st v).contains j)
    · rw [if_pos hc]
      by_cases hw : w = v
      · subst hw
        rw [if_pos rfl]
        have : (st w).length < capacity w := by
          have := hc
          simp only [Bool.and_eq_true] at this
          exact of_decide_eq_true this.1
        simpa [List.length_cons] using this
      · rw [if_neg hw]
        exact hst w
    · rw [if_neg hc]
      exact hst w
  | release j v =>
    simp only [applyRegistryOp]
    by_cases hw : w = v
    · subst hw
      rw [if_pos rfl]
      exact le_trans ((st w).erase_sublist j).length_le (hst w)
    · rw [if_neg hw]
      exact hst w

/-- Capacity bound is preserved along any operation sequence. -/
theorem foldl_registry_preserves (capacity : ℕ → ℕ) :
    ∀ (ops : List RegistryOp) (st : RegistryState),
      (∀ w, (st w).length ≤ capacity w) →
      ∀ w, ((ops.foldl (applyRegistryOp capacity) st) w).length ≤ capacity w := by
  intro ops
  induction ops with
  | nil => intro st hst w; exact hst w
  | cons op rest ih =>
    intro st hst w
    exact ih (applyRegistryOp capacity st op) (applyRegistryOp_preserves capacity st hst op) w

/-- C8: after any sequence of atomic reserve/release operations (any
linearization of concurrent attempts) starting from the empty registry,
every worker satisfies 0 ≤ openJobCount ≤ dailyCapacity. -/
theorem registry_capacity_invariant (capacity : ℕ → ℕ) (ops : List RegistryOp) (w : ℕ) :
    0 ≤ openJobCount (runRegistry capacity ops) w ∧
    openJobCount (runRegistry capacity ops) w ≤ capacity w := by
  constructor
  · exact Nat.zero_le _
  · exact foldl_registry_preserves capacity ops emptyRegistry
      (fun v => by simp [emptyRegistry]) w

/-- Witness for C8 on a short concrete operation sequence. -/
theorem registry_capacity_invariant_witness :
    openJobCount (runRegistry (fun _ => 1)
      [.reserve 10 0, .reserve 11 0, .release 10 0, .reserve 11 0]) 0 ≤ 1 :=
  (registry_capacity_invariant (fun _ => 1)
    [.reserve 10 0, .reserve 11 0, .release 10 0, .reserve 11 0] 0).2

/-- C9 counterexample: the masters.rating column is DECIMAL(3, 2) with no
CHECK constraint, so the schema accepts the rating 6, which violates the
claimed bound of 5. -/
theorem master_rating_schema_exceeds_five :
    masterRatingColumnAccepts 6 = true ∧ ¬ ((6 : ℚ) ≤ 5) := by
  constructor
  · have h : (6 : ℚ) * 100 = 600 := by norm_num
    rw [masterRatingColumnAccepts, h]
    simp only [Rat.den_ofNat, Rat.num_ofNat]
    decide
  · norm_num

/-- C9 (amended): the schema bounds a stored rating only by the column
type — masterRatingColumnAccepts holds exactly for the multiples of 0.01
from -9.99 to 9.99; no operation-level bound to the interval 0 to 5 is
enforced. -/
theorem master_rating_column_characterization (r : ℚ) :
    masterRatingColumnAccepts r = true ↔
      ∃ k : ℤ, -999 ≤ k ∧ k ≤ 999 ∧ r = (k : ℚ) / 100 := by
  rw [masterRatingColumnAccepts]
  simp only [Bool.and_eq_true, beq_iff_eq, decide_eq_true_eq]
  constructor
  · rintro ⟨⟨hden, hlo⟩, hhi⟩
    refine ⟨(r * 100).num, hlo, hhi, ?_⟩
    have hnum : ((r * 100).num : ℚ) = r * 100 := (Rat.den_eq_one_iff _).mp hden
    rw [hnum]
    ring
  · rintro ⟨k, hlo, hhi, rfl⟩
    have h : ((k : ℚ) / 100) * 100 = (k : ℚ) := by field_simp
    rw [h, Rat.den_intCast, Rat.num_intCast]
    exact ⟨⟨rfl, hlo⟩, hhi⟩

/-- Witness for C9 (amended) at the representable rating 2.5. -/
theorem master_rating_column_characterization_witness :
    masterRatingColumnAccepts (((250 : ℤ) : ℚ) / 100) = true :=
  (master_rating_column_characterization (((250 : ℤ) : ℚ) / 100)).mpr
    ⟨250, by decide, by decide, rfl⟩

/-- One attempted insert preserves uniqueness and non-nullness of the
stored phones. -/
theorem applyInsert_preserves_phones (tbl : List MasterRow) (row : MasterRow)
    (h : ((tbl.map MasterRow.phone).Nodup ∧ ∀ r ∈ tbl, r.phone ≠ none)) :
    (((applyInsert tbl row).map MasterRow.phone).Nodup ∧
      ∀ r ∈ applyInsert tbl row, r.phone ≠ none) := by
  cases hp : row.phone with
  | none =>
    simpa [applyInsert, insertMaster, hp] using h
  | some p =>
    by_cases hany : tbl.any (fun r => r.phone == some p)
    · simpa [applyInsert, insertMaster, hp, hany] using h
    · have hstep : applyInsert tbl row = row :: tbl := by
        simp [applyInsert, insertMaster, hp, hany]
      rw [hstep]
      constructor
      · rw [List.map_cons, List.nodup_cons]
        refine ⟨?_, h.1⟩
        intro hmem
        rw [List.mem_map] at hmem
        obtain ⟨r, hr, hrp⟩ := hmem
        apply hany
        rw [List.any_eq_true]
        exact ⟨r, hr, by rw [hrp, hp]; simp⟩
      · intro r hr
        rcases List.mem_cons.mp hr with hh | ht
        · rw [hh, hp]
          exact Option.some_ne_none p
        · exact h.2 r ht

/-- The phone invariant holds along any insert sequence. -/
theorem foldl_insert_preserves_phones :
    ∀ (rows : List MasterRow) (tbl : List MasterRow),
      ((tbl.map MasterRow.phone).Nodup ∧ ∀ r ∈ tbl, r.phone ≠ none) →
      (((rows.foldl applyInsert tbl).map MasterRow.phone).Nodup ∧
        ∀ r ∈ rows.foldl applyInsert tbl, r.phone ≠ none) := by
  intro rows
  induction rows with
  | nil => intro tbl h; exact h
  | cons row rest ih =>
    intro tbl h
    exact ih (applyInsert tbl row) (applyInsert_preserves_phones tbl row h)

/-- C10: in any masters table reached by inserts from empty, phones are
pairwise distinct and never null; inserting a null phone fails with a
NOT NULL violation and inserting an already-present phone fails with a
UNIQUE violation, in both cases producing no new table. -/
theorem masters_phone_unique_and_mandatory (rows : List MasterRow) :
    ((buildMasters rows).map MasterRow.phone).Nodup ∧
    (∀ r ∈ buildMasters rows, r.phone ≠ none) ∧
    (∀ row, row.phone = none →
      insertMaster (buildMasters rows) row = .error .notNullViolation) ∧
    (∀ row p, row.phone = some p → (∃ r ∈ buildMasters rows, r.phone = some p) →
      insertMaster (buildMasters rows) row = .error .uniqueViolation) := by
  have hinv := foldl_insert_preserves_phones rows []
    (by constructor <;> simp)
  refine ⟨hinv.1, hinv.2, ?_, ?_⟩
  · intro row hrow
    simp [insertMaster, hrow]
  · intro row p hrow hex
    obtain ⟨r, hr, hrp⟩ := hex
    have hany : (buildMasters rows).any (fun s => s.phone == some p) = true := by
      rw [List.any_eq_true]
      exact ⟨r, hr, by rw [hrp]; simp⟩
    simp [insertMaster, hrow, hany]

/-- Witness for C10: a duplicate phone is rejected. -/
theorem masters_phone_unique_and_mandatory_witness :
    insertMaster (buildMasters [⟨0, "a", some "5551", 0⟩]) ⟨1, "b", some "5551", 0⟩ =
      .error .uniqueViolation :=
  (masters_phone_unique_and_mandatory [⟨0, "a", some "5551", 0⟩]).2.2.2
    ⟨1, "b", some "5551", 0⟩ "5551" rfl
    ⟨⟨0, "a", some "5551", 0⟩, by simp [buildMasters, applyInsert, insertMaster], rfl⟩

/-- The ranking key determines the worker id. -/
theorem rankKey_inj_id (a b : Candidate) (h : rankKey a = rankKey b) : a.id = b.id := by
  rw [rankKey, rankKey, toLex_inj] at h
  have h2 := congrArg Prod.snd h
  rw [toLex_inj] at h2
  have h3 := congrArg Prod.snd h2
  have h4 : (a.id : ℤ) = b.id := neg_inj.mp h3
  exact_mod_cast h4

/-- With pairwise-distinct ids, filtering out the top candidate's id is
exactly erasing the top candidate. -/
theorem filter_ne_eq_erase (top : Candidate) :
    ∀ (l : List Candidate), top ∈ l → (l.map Candidate.id).Nodup →
      l.filter (fun c => c.id != top.id) = l.erase top := by
  intro l
  induction l with
  | nil => intro h _; exact absurd h (List.not_mem_nil top)
  | cons b t ih =>
    intro hmem hnd
    rw [List.map_cons, List.nodup_cons] at hnd
    by_cases hbt : b = top
    · subst hbt
      rw [List.erase_cons_head]
      rw [List.filter_cons_of_neg (by simp)]
      rw [List.filter_eq_self]
      intro c hc
      have hcid : c.id ∈ t.map Candidate.id := List.mem_map_of_mem Candidate.id hc
      have : c.id ≠ b.id := fun he => hnd.1 (he ▸ hcid)
      simpa using this
    · have htmem : top ∈ t := by
        rcases List.mem_cons.mp hmem with hh | ht
        · exact absurd hh.symm hbt
        · exact ht
      have hbid : b.id ≠ top.id := by
        intro he
        exact hnd.1 (he ▸ List.mem_map_of_mem Candidate.id htmem)
      rw [List.filter_cons_of_pos (by simpa using hbid)]
      rw [List.erase_cons_tail (by simpa using hbt)]
      rw [ih htmem hnd.2]

/-- Modelled from the spec: when no offer is accepted, a matching run
with enough fuel offers every remaining candidate exactly once, in
strictly descending ranking-key order, and ends with NoAvailableWorker. -/
theorem matchLoop_exhausts (resp : ℕ → OfferOutcome) (hresp : ∀ i, resp i ≠ .accepted) :
    ∀ (fuel : ℕ) (remaining : List Candidate),
      (remaining.map Candidate.id).Nodup → remaining.length ≤ fuel →
      (matchLoop resp fuel remaining).2 = .noAvailableWorker ∧
      List.Perm ((matchLoop resp fuel remaining).1.map Prod.fst) remaining ∧
      List.Pairwise (fun a b => rankKey b.1 < rankKey a.1) (matchLoop resp fuel remaining).1 := by
  intro fuel
  induction fuel with
  | zero =>
    intro remaining _ hlen
    have he : remaining = [] := List.length_eq_zero.mp (Nat.le_zero.mp hlen)
    subst he
    exact ⟨rfl, by simp [matchLoop], by simp [matchLoop]⟩
  | succ n ih =>
    intro remaining hnd hlen
    cases harg : remaining.argmax rankKey with
    | none =>
      have he : remaining = [] := List.argmax_eq_none.mp harg
      subst he
      refine ⟨?_, ?_, ?_⟩ <;> simp [matchLoop]
    | some top =>
      have htopmem : top ∈ remaining := List.argmax_mem (by rw [harg]; rfl)
      have hferase : remaining.filter (fun c => c.id != top.id) = remaining.erase top :=
        filter_ne_eq_erase top remaining htopmem hnd
      have hperm : List.Perm remaining (top :: remaining.filter (fun c => c.id != top.id)) := by
        rw [hferase]
        exact List.perm_cons_erase htopmem
      have hlen2 : (remaining.filter (fun c => c.id != top.id)).length ≤ n := by
        have hl := hperm.length_eq
        simp only [List.length_cons] at hl
        omega
      have hndf : ((remaining.filter (fun c => c.id != top.id)).map Candidate.id).Nodup :=
        List.Nodup.sublist (List.Sublist.map Candidate.id (List.filter_sublist remaining)) hnd
      obtain ⟨hres, hpermIH, hpair⟩ := ih (remaining.filter (fun c => c.id != top.id)) hndf hlen2
      have hstep : matchLoop resp (n + 1) remaining =
          ((top, resp top.id) :: (matchLoop resp n (remaining.filter (fun c => c.id != top.id))).1,
            (matchLoop resp n (remaining.filter (fun c => c.id != top.id))).2) := by
        cases hr : resp top.id with
        | accepted => exact absurd hr (hresp top.id)
        | declined => simp [matchLoop, harg, hr]
        | expired => simp [matchLoop, harg, hr]
      rw [hstep]
      refine ⟨hres, ?_, ?_⟩
      · exact (hpermIH.cons top).trans hperm.symm
      · refine List.pairwise_cons.mpr ⟨?_, hpair⟩
        intro x hx
        have hx1 : x.1 ∈ remaining.filter (fun c => c.id != top.id) :=
          hpermIH.subset (List.mem_map_of_mem Prod.fst hx)
        obtain ⟨hxrem, hxbne⟩ := List.mem_filter.mp hx1
        have hxne : x.1.id ≠ top.id := bne_iff_ne.mp hxbne
        have hle : rankKey x.1 ≤ rankKey top :=
          List.le_of_mem_argmax hxrem (by rw [harg]; rfl)
        refine lt_of_le_of_ne hle ?_
        intro heq
        exact hxne (rankKey_inj_id x.1 top heq)

/-- C7: for a priced job with a snapshot of eligible workers carrying
distinct ids and distinct scores, if every offer is declined or times
out, the matching run sends each worker exactly one offer, in strictly
descending score order, and ends with NoAvailableWorker. -/
theorem matcher_offers_each_once_descending (cands : List Candidate) (resp : ℕ → OfferOutcome)
    (hids : (cands.map Candidate.id).Nodup)
    (hresp : ∀ i, resp i ≠ .accepted)
    (hscores : ∀ a ∈ cands, ∀ b ∈ cands, a ≠ b → a.score ≠ b.score) :
    (matchLoop resp cands.length cands).2 = .noAvailableWorker ∧
    List.Perm ((matchLoop resp cands.length cands).1.map Prod.fst) cands ∧
    List.Pairwise (fun a b => b.1.score < a.1.score) (matchLoop resp cands.length cands).1 := by
  obtain ⟨h1, h2, h3⟩ := matchLoop_exhausts resp hresp cands.length cands hids le_rfl
  refine ⟨h1, h2, ?_⟩
  refine h3.imp_of_mem ?_
  intro a b ha hb hlt
  have hamem : a.1 ∈ cands := h2.subset (List.mem_map_of_mem Prod.fst ha)
  have hbmem : b.1 ∈ cands := h2.subset (List.mem_map_of_mem Prod.fst hb)
  rw [rankKey, rankKey, Prod.Lex.lt_iff] at hlt
  rcases hlt with hscore | ⟨heq, hinner⟩
  · exact hscore
  · by_cases hab : a.1 = b.1
    · rw [hab] at hinner
      exact absurd hinner (lt_irrefl _)
    · exact absurd heq.symm (hscores a.1 hamem b.1 hbmem hab)

/-- Witness for C7: two candidates, both decline. -/
theorem matcher_offers_each_once_descending_witness :
    (matchLoop (fun _ => .declined) ([⟨0, 2, 5⟩, ⟨1, 1, 4⟩] : List Candidate).length
        [⟨0, 2, 5⟩, ⟨1, 1, 4⟩]).2 = .noAvailableWorker ∧
    List.Perm ((matchLoop (fun _ => .declined) ([⟨0, 2, 5⟩, ⟨1, 1, 4⟩] : List Candidate).length
        [⟨0, 2, 5⟩, ⟨1, 1, 4⟩]).1.map Prod.fst) [⟨0, 2, 5⟩, ⟨1, 1, 4⟩] ∧
    List.Pairwise (fun a b => b.1.score < a.1.score)
      (matchLoop (fun _ => .declined) ([⟨0, 2, 5⟩, ⟨1, 1, 4⟩] : List Candidate).length
        [⟨0, 2, 5⟩, ⟨1, 1, 4⟩]).1 :=
  matcher_offers_each_once_descending [⟨0, 2, 5⟩, ⟨1, 1, 4⟩] (fun _ => .declined)
    (by decide) (fun i h => OfferOutcome.noConfusion h) (by decide)
